import Mathlib

/-!
Verification development for the `pandss` library: a shallow embedding of its
hierarchical dataset-path model (`DatasetPath`, `DatasetPathCollection`), the
wildcard resolution engine, the `Interval` duration model, `RegularTimeseries`
arithmetic, and the DSS orchestration layer, together with theorems settling
the specified properties.

Python strings are modelled as `List Char` (`PyStr`).  Python's `re` module,
as used by the library, is modelled by a small executable matching engine
(`matchTok` / `findAll`) that is faithful to `re` semantics on the patterns the
library builds: literal characters and the `.*` wildcard (a dot does not match
a newline, `findall` returns leftmost non-overlapping greedy matches, and the
`IGNORECASE` flag lower-cases ASCII letters on both sides).  Fallible Python
code is modelled with `Except Err`.
-/

namespace Pandss

/-- Python `str`, modelled as a list of characters. -/
abbrev PyStr := List Char

/-- Errors raised by the library (`pandss.errors`) and by the Python runtime. -/
inductive Err where
  /-- `pandss.errors.WildcardError` -/
  | wildcardError
  /-- `pandss.errors.DatasetPathParseError` -/
  | datasetPathParseError
  /-- `pandss.errors.ClosedDSSError` -/
  | closedDSSError
  /-- Python `TypeError` (e.g. wrong number of dataclass arguments) -/
  | typeError
  /-- Python `ValueError` -/
  | valueError
  /-- Python `AttributeError` (e.g. attribute access on `None`) -/
  | attributeError
  /-- Python `KeyError` -/
  | keyError
  deriving DecidableEq, Repr

/-- The wildcard marker `".*"` (`WILDCARD_STR` in `pandss.paths.wildcard`). -/
def wild : PyStr := ['.', '*']

/-- `list.startsWith` test: `pre` is an initial segment of `s`. -/
def startsWithChars : PyStr → PyStr → Bool
  | _, [] => true
  | [], _ :: _ => false
  | c :: cs, p :: ps => c = p && startsWithChars cs ps

/-- Substring test; models `re.findall(r"\.\*", s) != []` when `pat = wild`,
and more generally whether `pat` occurs contiguously in `s`. -/
def containsSub : PyStr → PyStr → Bool
  | s, pat =>
    startsWithChars s pat ||
      match s with
      | [] => false
      | _ :: t => containsSub t pat

/-- Python `str.lstrip(ch)`: drop every leading occurrence of `ch`. -/
def lstripChar (ch : Char) (s : PyStr) : PyStr := s.dropWhile (· = ch)

/-- Python `str.rstrip(ch)`: drop every trailing occurrence of `ch`. -/
def rstripChar (ch : Char) (s : PyStr) : PyStr :=
  (s.reverse.dropWhile (· = ch)).reverse

/-- Python `str.strip(ch)`: drop `ch` from both ends. -/
def stripChar (ch : Char) (s : PyStr) : PyStr := lstripChar ch (rstripChar ch s)

/-- `pandss.paths.DatasetPath` (`src/pandss/paths/dataset_path.py`):
six ordered string parts `a`–`f`; a part equal to `".*"` (or containing it)
is a wildcard. -/
structure DatasetPath where
  a : PyStr := wild
  b : PyStr := wild
  c : PyStr := wild
  d : PyStr := wild
  e : PyStr := wild
  f : PyStr := wild
  deriving DecidableEq, Repr

namespace DatasetPath

/-- The six parts in order, as iterated by `DatasetPath.__iter__`. -/
def parts (p : DatasetPath) : List PyStr := [p.a, p.b, p.c, p.d, p.e, p.f]

/-- `DatasetPath.__str__`: the canonical form `/a/b/c/d/e/f/`. -/
def pathStr (p : DatasetPath) : PyStr :=
  '/' :: List.intercalate ['/'] p.parts ++ ['/']

/-- The string `f"/{a}/{b}/{c}//{e}/{f}/"` used by `has_wildcard`
(the D part is omitted). -/
def pathStrNoD (p : DatasetPath) : PyStr :=
  '/' :: List.intercalate ['/'] [p.a, p.b, p.c, [], p.e, p.f] ++ ['/']

/-- `DatasetPath.has_wildcard`: a `".*"` occurs among the A, B, C, E, F parts
(the D part is excluded by the domain convention). -/
def hasWildcard (p : DatasetPath) : Bool := containsSub (pathStrNoD p) wild

/-- `DatasetPath.has_any_wildcard`: a `".*"` occurs anywhere in the path,
the D part included. -/
def hasAnyWildcard (p : DatasetPath) : Bool := containsSub (pathStr p) wild

/-- `DatasetPath.drop_date`: copy with the D part forced to the wildcard. -/
def dropDate (p : DatasetPath) : DatasetPath := { p with d := wild }

/-- `DatasetPath.from_str` (`src/src/pandss/paths.py`): strip surrounding
`/` delimiters, split on `/`, normalize empty or bare-`*` segments to the
wildcard marker, and fail unless exactly 6 segments result. -/
def fromStr (s : PyStr) : Except Err DatasetPath :=
  let args := (stripChar '/' s).splitOn '/'
  let args := args.map fun v => if v = [] ∨ v = ['*'] then wild else v
  match args with
  | [a, b, c, d, e, f] => .ok ⟨a, b, c, d, e, f⟩
  | _ => .error .datasetPathParseError

end DatasetPath

/-! ### A model of Python `re` on the library's patterns

`pandss` compiles path strings as regular expressions.  The only construct a
path contributes is the wildcard `".*"`; every other character is matched
literally.  We model exactly this fragment: a pattern is a list of tokens,
each a literal character or a `.*` wildcard.  `.` does not match a newline
(no `DOTALL`), `findall` scans left to right returning non-overlapping
greedy matches, and `IGNORECASE` compares ASCII-lower-cased characters. -/

/-- ASCII lower-casing, as applied by `re.IGNORECASE` to the pattern and
subject characters. -/
def lowerChar : Char → Char
  | 'A' => 'a' | 'B' => 'b' | 'C' => 'c' | 'D' => 'd' | 'E' => 'e'
  | 'F' => 'f' | 'G' => 'g' | 'H' => 'h' | 'I' => 'i' | 'J' => 'j'
  | 'K' => 'k' | 'L' => 'l' | 'M' => 'm' | 'N' => 'n' | 'O' => 'o'
  | 'P' => 'p' | 'Q' => 'q' | 'R' => 'r' | 'S' => 's' | 'T' => 't'
  | 'U' => 'u' | 'V' => 'v' | 'W' => 'w' | 'X' => 'x' | 'Y' => 'y'
  | 'Z' => 'z'
  | c => c

/-- Character comparison of the matcher: literal equality, or equality after
lower-casing when the case-insensitive flag `ci` is set. -/
def ceq (ci : Bool) (c x : Char) : Bool :=
  c = x || (ci && lowerChar c = lowerChar x)

/-- One token of a compiled pattern: a literal character, or the `.*`
wildcard. -/
inductive Tok where
  | lit (c : Char)
  | star
  deriving DecidableEq, Repr

/-- Compile a pattern string: each occurrence of `".*"` becomes a wildcard
token, every other character a literal token. -/
def tokenize : PyStr → List Tok
  | '.' :: '*' :: rest => .star :: tokenize rest
  | c :: rest => .lit c :: tokenize rest
  | [] => []

/-- Length of the longest prefix a `.*` may consume: `.` matches any
character except a newline. -/
def dotMax : PyStr → Nat
  | [] => 0
  | c :: rest => if c = '\n' then 0 else dotMax rest + 1

/-- Greedy back-tracking loop for a `.*` token: try consuming `k` characters,
from the largest `k` downwards, and continue with the rest of the pattern
(`f`). Returns the total number of characters matched. -/
def starLoop (f : PyStr → Option Nat) (s : PyStr) : Nat → Option Nat
  | 0 => f s
  | k + 1 =>
    match f (s.drop (k + 1)) with
    | some m => some (k + 1 + m)
    | none => starLoop f s k

/-- Match a compiled pattern against a prefix of `s`; returns the number of
characters of the (greedy, leftmost-anchored) match. -/
def matchTok (ci : Bool) : List Tok → PyStr → Option Nat
  | [], _ => some 0
  | .lit _ :: _, [] => none
  | .lit c :: rest, x :: xs =>
    if ceq ci c x then (matchTok ci rest xs).map (· + 1) else none
  | .star :: rest, s => starLoop (matchTok ci rest) s (dotMax s)

/-- Fuel-indexed scanning loop of `re.findall`: at each position emit the
match found there (advancing past it, or by one character after an empty
match), otherwise advance one character. -/
def findAllAux (ci : Bool) (toks : List Tok) : Nat → PyStr → List PyStr
  | 0, _ => []
  | fuel + 1, s =>
    match matchTok ci toks s with
    | some m =>
      if m = 0 then
        [] :: (match s with
          | [] => []
          | _ :: t => findAllAux ci toks fuel t)
      else
        s.take m :: findAllAux ci toks fuel (s.drop m)
    | none =>
      match s with
      | [] => []
      | _ :: t => findAllAux ci toks fuel t

/-- `re.findall(pattern, s)`: all non-overlapping matches, left to right. -/
def findAll (ci : Bool) (toks : List Tok) (s : PyStr) : List PyStr :=
  findAllAux ci toks (s.length + 1) s

namespace DatasetPath

/-- Part-level subsumption used by `DatasetPath.matches`:
`compile(L).findall(R)` is non-empty (no `IGNORECASE` flag here). -/
def subsumes (L R : PyStr) : Bool := !(findAll false (tokenize L) R).isEmpty

/-- The per-part loop of `DatasetPath.matches`, with the `L_to_R` / `R_to_L`
flags, followed by the final one-direction-only check. -/
def matchLoop : List (PyStr × PyStr) → Bool → Bool → Bool
  | [], lr, rl => !(lr && rl)
  | (L, R) :: rest, lr, rl =>
    if L = R then matchLoop rest lr rl
    else if subsumes L R then matchLoop rest true rl
    else if subsumes R L then matchLoop rest lr true
    else false

/-- `DatasetPath.matches` (`src/pandss/paths/dataset_path.py`): equality when
neither side has any wildcard, otherwise the per-part equality-or-subsumption
loop with the multi-direction rejection.  (The `try/except` fallback is dead
in this fragment: compiling a pattern never raises.) -/
def pathMatches (p q : DatasetPath) : Bool :=
  if !p.hasAnyWildcard && !q.hasAnyWildcard then decide (p = q)
  else matchLoop (p.parts.zip q.parts) false false

end DatasetPath

/-- `DatasetPath(*args)` applied to the segments of a matched string:
missing trailing parts take the dataclass default `".*"`; more than six
positional arguments raise a `TypeError`. -/
def mkPathFromArgs : List PyStr → Except Err DatasetPath
  | [] => .ok {}
  | [a] => .ok { a := a }
  | [a, b] => .ok { a := a, b := b }
  | [a, b, c] => .ok { a := a, b := b, c := c }
  | [a, b, c, d] => .ok { a := a, b := b, c := c, d := d }
  | [a, b, c, d, e] => .ok { a := a, b := b, c := c, d := d, e := e }
  | [a, b, c, d, e, f] => .ok ⟨a, b, c, d, e, f⟩
  | _ => .error .typeError

/-- Effectful map over a list in the `Except` monad (a list comprehension
whose body may raise). -/
def mapME (f : α → Except Err β) : List α → Except Err (List β)
  | [] => .ok []
  | x :: xs => do
    let y ← f x
    let ys ← mapME f xs
    .ok (y :: ys)

/-- `pandss.paths.DatasetPathCollection`: Python stores a `set[DatasetPath]`;
we model it as the list of its members in iteration order (construction sites
deduplicate, mirroring set semantics). -/
structure DatasetPathCollection where
  paths : List DatasetPath
  deriving DecidableEq, Repr

namespace DatasetPathCollection

/-- The newline-joined buffer `"\n".join(str(p) for p in self.paths)`. -/
def buffer (c : DatasetPathCollection) : PyStr :=
  List.intercalate ['\n'] (c.paths.map DatasetPath.pathStr)

/-- `DatasetPathCollection.resolve_wildcard`
(`src/pandss/paths/dataset_path_collection.py`): raise `WildcardError` when
the collection itself holds wildcarded members and the pattern is wildcarded;
otherwise compile the pattern's canonical string (case-insensitively), scan
the newline-joined buffer once, strip the `/` delimiters from each match,
re-split on `/`, and build the resulting paths as a set. -/
def resolveWildcard (c : DatasetPathCollection) (p : DatasetPath) :
    Except Err DatasetPathCollection :=
  if (c.paths.any DatasetPath.hasAnyWildcard) && p.hasWildcard then
    .error .wildcardError
  else
    let matched := findAll true (tokenize p.pathStr) c.buffer
    let matched := matched.map fun m => rstripChar '/' (lstripChar '/' m)
    (mapME mkPathFromArgs (matched.map (·.splitOn '/'))).map
      fun ps => ⟨ps.dedup⟩

/-- `DatasetPathCollection.collapse_dates`: force every member's D part to
the wildcard and rebuild the set. -/
def collapseDates (c : DatasetPathCollection) : DatasetPathCollection :=
  ⟨(c.paths.map DatasetPath.dropDate).dedup⟩

end DatasetPathCollection

/-! ### Interval (`src/src/pandss/timeseries/interval.py`) -/

/-- ASCII upper-casing, for `base.upper()` during interval parsing. -/
def upperChar : Char → Char
  | 'a' => 'A' | 'b' => 'B' | 'c' => 'C' | 'd' => 'D' | 'e' => 'E'
  | 'f' => 'F' | 'g' => 'G' | 'h' => 'H' | 'i' => 'I' | 'j' => 'J'
  | 'k' => 'K' | 'l' => 'L' | 'm' => 'M' | 'n' => 'N' | 'o' => 'O'
  | 'p' => 'P' | 'q' => 'Q' | 'r' => 'R' | 's' => 'S' | 't' => 'T'
  | 'u' => 'U' | 'v' => 'V' | 'w' => 'W' | 'x' => 'X' | 'y' => 'Y'
  | 'z' => 'Z'
  | c => c

/-- The pandas offset kinds reachable from `INTERVAL_TO_PANDAS_OFFSET`
(`TRI-MONTH` raises before an offset is built and so has no constructor). -/
inductive OffsetKind where
  | year | month | semiMonth | week | day | hour | minute | second
  deriving DecidableEq, Repr

/-- A pandas offset as the library observes it: a kind and a multiplier.
Offset equality (`self.offset == __other.offset`) is equality of both. -/
structure Offset where
  kind : OffsetKind
  n : Nat
  deriving DecidableEq, Repr

/-- `pandss.timeseries.Interval`: the raw E-part token and the parsed pandas
offset. -/
structure Interval where
  e : PyStr
  offset : Offset
  deriving DecidableEq, Repr

namespace Interval

/-- Value of a digit run (`int(n)` on the regex group). -/
def digitsToNat (ds : PyStr) : Nat :=
  ds.foldl (fun acc c => acc * 10 + (c.toNat - '0'.toNat)) 0

/-- `INTERVAL_TO_PANDAS_OFFSET` lookup on the upper-cased unit key, applying
the offset factory to the multiplier (`AnnualOffset` folds its factor into
the multiplier; `TRI-MONTH` raises `NotImplementedInterval`). -/
def lookupOffset (key : PyStr) (n : Nat) : Except Err Offset :=
  if key = "YEAR".data then .ok ⟨.year, n⟩
  else if key = "MON".data then .ok ⟨.month, n⟩
  else if key = "MONTH".data then .ok ⟨.month, n⟩
  else if key = "SEMI-MONTH".data then .ok ⟨.semiMonth, n⟩
  else if key = "TRI-MONTH".data then .error .valueError
  else if key = "WEEK".data then .ok ⟨.week, n⟩
  else if key = "DAY".data then .ok ⟨.day, n⟩
  else if key = "HOUR".data then .ok ⟨.hour, n⟩
  else if key = "MIN".data then .ok ⟨.minute, n⟩
  else if key = "MINUTE".data then .ok ⟨.minute, n⟩
  else if key = "SECOND".data then .ok ⟨.second, n⟩
  else if key = "IR-CENTURY".data then .ok ⟨.year, 100 * n⟩
  else if key = "IR-DECADE".data then .ok ⟨.year, 10 * n⟩
  else if key = "IR-YEAR".data then .ok ⟨.year, n⟩
  else if key = "IR-MONTH".data then .ok ⟨.month, n⟩
  else if key = "IR-DAY".data then .ok ⟨.day, n⟩
  else .error .valueError

/-- `Interval.__init__`: match `(?P<n>\d+)?(?P<key>[a-zA-Z\-]+)` at the start
of the token (an optional digit run, then a non-empty run of letters and
hyphens), default the multiplier to 1, and look the key up. -/
def ofToken (e : PyStr) : Except Err Interval := do
  let digits := e.takeWhile Char.isDigit
  let rest := e.dropWhile Char.isDigit
  let key := rest.takeWhile fun c => c.isAlpha || c = '-'
  if key = [] then .error .valueError
  else
    let n := if digits = [] then 1 else digitsToNat digits
    let off ← lookupOffset (key.map upperChar) n
    .ok ⟨e, off⟩

/-- `Interval.seconds`: fixed-width offsets (`Tick`s: second, minute, hour,
day) expose exact nanoseconds; the rest fall back to the documented
approximation — 365-day year, 30-day month, 7-day week — which ignores the
multiplier; `SEMI-MONTH` is absent from the fallback table (`KeyError`). -/
def secondsE (i : Interval) : Except Err Nat :=
  match i.offset.kind with
  | .second => .ok i.offset.n
  | .minute => .ok (60 * i.offset.n)
  | .hour => .ok (3600 * i.offset.n)
  | .day => .ok (86400 * i.offset.n)
  | .year => .ok (365 * 24 * 60 * 60)
  | .month => .ok (30 * 24 * 60 * 60)
  | .week => .ok (7 * 24 * 60 * 60)
  | .semiMonth => .error .keyError

/-- `Interval.__lt__`: compare the two `seconds` values (propagating any
exception `seconds` raises). -/
def ltE (i j : Interval) : Except Err Bool := do
  let s ← secondsE i
  let t ← secondsE j
  .ok (decide (s < t))

end Interval

/-! ### RegularTimeseries (`src/src/pandss/timeseries/regular_timeseries.py`) -/

/-- `pandss.timeseries.RegularTimeseries`: value and date arrays (dates as
`datetime64` integers), units, period type, and interval. -/
structure RegularTimeseries where
  path : DatasetPath
  values : List Int
  dates : List Int
  period_type : PyStr
  units : PyStr
  interval : Interval
  deriving DecidableEq, Repr

namespace RegularTimeseries

/-- `RegularTimeseries.__post_init__`: only `isinstance` coercions of the
field types (identity in this typed model).  No relation between
`len(values)` and `len(dates)` is checked, so construction never fails on a
length mismatch. -/
def postInit (r : RegularTimeseries) : Except Err RegularTimeseries := .ok r

/-- Python truthiness of an optional array argument: `None` and the empty
array are falsy. -/
def truthy (o : Option (List Int)) : Bool :=
  match o with
  | none => false
  | some l => !l.isEmpty

/-- `RegularTimeseries.update` restricted to the `values`/`dates` keywords:
when either given argument is truthy, the (defaulted) new lengths must agree
or a `ValueError` is raised; the new object is then built from the updated
fields. -/
def update (r : RegularTimeseries) (values? dates? : Option (List Int)) :
    Except Err RegularTimeseries :=
  if truthy values? || truthy dates? then
    let v := values?.getD r.values
    let d := dates?.getD r.dates
    if v.length ≠ d.length then .error .valueError
    else .ok { r with values := v, dates := d }
  else .ok { r with values := values?.getD r.values, dates := dates?.getD r.dates }

/-- `numpy.intersect1d`: the sorted list of unique values present in both
arrays. -/
def intersect1d (x y : List Int) : List Int :=
  ((x.filter fun a => decide (a ∈ y)).dedup).mergeSort (fun a b => decide (a ≤ b))

/-- One part of the combined path: identical parts pass through, differing
parts are joined with the `__add__` concat character `'+'`. -/
def combinePart (x y : PyStr) : PyStr := if x = y then x else x ++ '+' :: y

/-- The combined path built by `_do_arithmetic`: part-wise combination, with
the B part force-differentiated when the two paths are fully identical. -/
def combinePath (p q : DatasetPath) : DatasetPath :=
  let base : DatasetPath :=
    ⟨combinePart p.a q.a, combinePart p.b q.b, combinePart p.c q.c,
     combinePart p.d q.d, combinePart p.e q.e, combinePart p.f q.f⟩
  if p = q then { base with b := p.b ++ '+' :: q.b } else base

/-- Boolean-mask selection `values[[date in keep for date in dates]]`
(in numpy the mask length must equal the value-array length; the theorems
assume `len(values) = len(dates)` accordingly). -/
def maskSelect (dates values : List Int) (keep : List Int) : List Int :=
  ((dates.zip values).filter fun pr => decide (pr.1 ∈ keep)).map (·.2)

/-- `RegularTimeseries.__add__` via `_do_arithmetic("__add__")`: interval,
period type and units must be equal (checked in that order, `ValueError`
otherwise); the result's dates are the intersection of the two date arrays
and its values the element-wise sum of the mask-selected value arrays. -/
def addRts (r s : RegularTimeseries) : Except Err RegularTimeseries :=
  if r.interval.offset ≠ s.interval.offset then .error .valueError
  else if r.period_type ≠ s.period_type then .error .valueError
  else if r.units ≠ s.units then .error .valueError
  else
    let newDates := intersect1d r.dates s.dates
    let valuesLeft := maskSelect r.dates r.values newDates
    let valuesRight := maskSelect s.dates s.values newDates
    .ok { path := combinePath r.path s.path,
          values := valuesLeft.zipWith (· + ·) valuesRight,
          dates := newDates,
          period_type := r.period_type,
          units := r.units,
          interval := r.interval }

end RegularTimeseries

/-! ### Engine lifecycle (`src/pandss/engines/pyhecdss_engine.py`) and the
orchestration layer (`src/src/pandss/dss.py`) -/

/-- The observable state of a `PyHecDssEngine`: the `_is_open` flag, the
`_object` handle (`None` until `open()` is first called), and the cached
catalog next to the catalog the underlying file would report. -/
structure PyHecDssEngine where
  isOpen : Bool
  object : Option Unit
  catalog : Option DatasetPathCollection
  fileCatalog : DatasetPathCollection
  deriving Repr

namespace PyHecDssEngine

/-- The `@must_be_open` decorator: raise `ClosedDSSError` unless the engine
is open, otherwise run the wrapped body. -/
def mustBeOpen (s : PyHecDssEngine) (body : Except Err α) : Except Err α :=
  if s.isOpen = false then .error .closedDSSError else body

/-- `PyHecDssEngine.open`: create the underlying handle and set the flag. -/
def engineOpen (s : PyHecDssEngine) : PyHecDssEngine :=
  { s with isOpen := true, object := some () }

/-- `PyHecDssEngine.close` (decorated with `@must_be_open`). -/
def engineClose (s : PyHecDssEngine) : Except Err PyHecDssEngine :=
  mustBeOpen s (.ok { s with isOpen := false })

/-- `PyHecDssEngine.read_catalog` (decorated with `@must_be_open`): read the
file's catalog and cache it. -/
def engineReadCatalog (s : PyHecDssEngine) :
    Except Err (PyHecDssEngine × DatasetPathCollection) :=
  mustBeOpen s (.ok ({ s with catalog := some s.fileCatalog }, s.fileCatalog))

/-- `PyHecDssEngine.read_rts` (decorated with `@must_be_open`); the body's
backend read is abstracted, the claims concern only the guard. -/
def engineReadRts (s : PyHecDssEngine) (_p : DatasetPath) : Except Err Unit :=
  mustBeOpen s (.ok ())

/-- `PyHecDssEngine.write_rts` — NOT decorated with `@must_be_open` in the
source.  Its body immediately uses `self._object`; on an engine that was
never opened `_object` is `None`, so Python raises `AttributeError`, and no
`ClosedDSSError` is ever produced. -/
def engineWriteRts (s : PyHecDssEngine) (_p : DatasetPath)
    (_r : RegularTimeseries) : Except Err Unit :=
  match s.object with
  | none => .error .attributeError
  | some _ => .ok ()

end PyHecDssEngine

/-- `DSS.write_rts` (`src/src/pandss/dss.py`): refuse a destination path
with a non-date wildcard (`WildcardError`) before any engine call; otherwise
delegate to the engine's `write_rts`. -/
def dssWriteRts (s : PyHecDssEngine) (p : DatasetPath)
    (r : RegularTimeseries) : Except Err Unit :=
  if p.hasWildcard then .error .wildcardError
  else PyHecDssEngine.engineWriteRts s p r

/-- `DSS.resolve_wildcard` (`src/src/pandss/dss.py`): a path without a
(non-date) wildcard is returned as a singleton collection without consulting
the catalog; a wildcarded path is resolved against the (cached) catalog, with
an optional date collapse. -/
def dssResolveWildcard (catalog : DatasetPathCollection) (p : DatasetPath)
    (drop_date : Bool) : Except Err DatasetPathCollection :=
  if !p.hasWildcard then .ok ⟨[p]⟩
  else
    (catalog.resolveWildcard p).map fun c =>
      if drop_date then c.collapseDates else c

/-! ### Concrete inputs used by counterexamples and witnesses -/

/-- The concrete literal path `/A/B/C/D/E/F/`. -/
def exPathABCDEF : DatasetPath := ⟨['A'], ['B'], ['C'], ['D'], ['E'], ['F']⟩

/-- The concrete literal path `/G/H/I/J/K/L/`. -/
def exPathGHIJKL : DatasetPath := ⟨['G'], ['H'], ['I'], ['J'], ['K'], ['L']⟩

/-- The fully wildcarded path `/.*/.*/.*/.*/.*/.*/`. -/
def exAllWild : DatasetPath := ⟨wild, wild, wild, wild, wild, wild⟩

/-- A collection whose single member has a wildcarded A part. -/
def exWildCollection : DatasetPathCollection :=
  ⟨[⟨wild, ['B'], ['C'], ['D'], ['E'], ['F']⟩]⟩

/-- A path whose A part is the empty string (all parts `/`- and
newline-free). -/
def exPathEmptyA : DatasetPath := ⟨[], ['B'], ['C'], ['D'], ['E'], ['F']⟩

/-- `/a.*/xb/c/d/e/f/`: its A part subsumes `.*a` in both directions, while
its B part is subsumed by `.*` in one direction only. -/
def exAsymL : DatasetPath := ⟨['a', '.', '*'], ['x', 'b'], ['c'], ['d'], ['e'], ['f']⟩

/-- `/.*a/.*/c/d/e/f/`: counterpart of `exAsymL`. -/
def exAsymR : DatasetPath := ⟨['.', '*', 'a'], ['.', '*'], ['c'], ['d'], ['e'], ['f']⟩

/-- `/a.*/b/c/d/e/f/`: its A part and `.*a` subsume each other (ambiguous
bidirectional subsumption). -/
def exBidirL : DatasetPath := ⟨['a', '.', '*'], ['b'], ['c'], ['d'], ['e'], ['f']⟩

/-- `/.*a/b/c/d/e/f/`: counterpart of `exBidirL`. -/
def exBidirR : DatasetPath := ⟨['.', '*', 'a'], ['b'], ['c'], ['d'], ['e'], ['f']⟩

/-- The monthly interval `"1MON"` as parsed by `Interval`. -/
def exIntervalMon : Interval := ⟨['1', 'M', 'O', 'N'], ⟨.month, 1⟩⟩

/-- A well-formed concrete timeseries on `/A/B/C/D/E/F/`. -/
def exRts : RegularTimeseries :=
  ⟨exPathABCDEF, [1, 2], [10, 20], ['P', 'E', 'R'], ['C', 'F', 'S'],
   exIntervalMon⟩

/-- A timeseries whose value and date arrays have different lengths. -/
def exBadRts : RegularTimeseries :=
  ⟨exPathABCDEF, [1, 2], [10], ['P', 'E', 'R'], ['C', 'F', 'S'],
   exIntervalMon⟩

/-- A `PyHecDssEngine` that has never been opened: flag down, `_object`
still `None`. -/
def exClosedEngine : PyHecDssEngine := ⟨false, none, none, ⟨[]⟩⟩

/-! ## Theorems -/

/-- C1 counterexample: the literal path `/A/B/C/D/E/F/` is not a member of
the catalog `{/G/H/I/J/K/L/}`, yet `DSS.resolve_wildcard` returns the
singleton `{/A/B/C/D/E/F/}` rather than an empty collection — refuting
"returns … an empty collection otherwise (present iff equal to a catalog
member)". -/
theorem c1_absent_path_still_resolves_to_singleton :
    exPathABCDEF.hasWildcard = false ∧
      dssResolveWildcard ⟨[exPathGHIJKL]⟩ exPathABCDEF false =
        .ok ⟨[exPathABCDEF]⟩ ∧
      exPathABCDEF ∉ [exPathGHIJKL] := by
  refine ⟨by decide, rfl, by decide⟩

/-- C1 (amended): resolving a path without a (non-date) wildcard never
queries the catalog and always returns the singleton collection holding the
requested path itself — for every catalog, whether or not the path is a
member. -/
theorem c1_nonwildcard_resolve_is_singleton_of_request
    (catalog : DatasetPathCollection) (p : DatasetPath) (dd : Bool)
    (h : p.hasWildcard = false) :
    dssResolveWildcard catalog p dd = .ok ⟨[p]⟩ := by
  simp [dssResolveWildcard, h]

/-- Witness for the amended C1 theorem at a concrete input. -/
theorem c1_nonwildcard_resolve_witness :
    exPathABCDEF.hasWildcard = false ∧
      dssResolveWildcard ⟨[exPathGHIJKL]⟩ exPathABCDEF true =
        .ok ⟨[exPathABCDEF]⟩ :=
  ⟨by decide,
   c1_nonwildcard_resolve_is_singleton_of_request _ _ _ (by decide)⟩

/-- C2: resolving a wildcarded pattern against a collection that itself
contains wildcarded members raises `WildcardError`; no match result is
returned.  (No equality-only fallback mode exists in the source, so the
failure is unconditional.) -/
theorem c2_resolve_on_wildcarded_catalog_raises
    (c : DatasetPathCollection) (p : DatasetPath)
    (hp : p.hasWildcard = true)
    (hc : c.paths.any DatasetPath.hasAnyWildcard = true) :
    c.resolveWildcard p = .error .wildcardError := by
  simp [DatasetPathCollection.resolveWildcard, hp, hc]

/-- Witness for C2 at a concrete input. -/
theorem c2_resolve_on_wildcarded_catalog_witness :
    exAllWild.hasWildcard = true ∧
      exWildCollection.paths.any DatasetPath.hasAnyWildcard = true ∧
      exWildCollection.resolveWildcard exAllWild = .error .wildcardError :=
  ⟨by decide, by decide,
   c2_resolve_on_wildcarded_catalog_raises _ _ (by decide) (by decide)⟩

/-- C5 (code bug): on an engine in the `Closed` state that was never opened,
the `@must_be_open`-decorated operations (`close`, `read_catalog`,
`read_rts`) raise `ClosedDSSError`, but `write_rts` — which lacks the
decorator in the source — instead hits `self._object = None` and raises
`AttributeError`, never the closed-resource error the specification
requires. -/
theorem c5_closed_engine_guards_except_write
    (s : PyHecDssEngine) (p : DatasetPath) (r : RegularTimeseries)
    (h1 : s.isOpen = false) (h2 : s.object = none) :
    s.engineReadCatalog = .error .closedDSSError ∧
      s.engineReadRts p = .error .closedDSSError ∧
      s.engineClose = .error .closedDSSError ∧
      s.engineWriteRts p r = .error .attributeError ∧
      Err.attributeError ≠ Err.closedDSSError := by
  refine ⟨?_, ?_, ?_, ?_, by decide⟩ <;>
    simp [PyHecDssEngine.engineReadCatalog, PyHecDssEngine.engineReadRts,
      PyHecDssEngine.engineClose, PyHecDssEngine.engineWriteRts,
      PyHecDssEngine.mustBeOpen, h1, h2]

/-- Witness for C5 at the concrete never-opened engine. -/
theorem c5_closed_engine_witness :
    exClosedEngine.isOpen = false ∧
      exClosedEngine.engineWriteRts exPathABCDEF exRts =
        .error .attributeError :=
  ⟨by decide,
   (c5_closed_engine_guards_except_write exClosedEngine exPathABCDEF exRts
      (by decide) rfl).2.2.2.1⟩

/-- C6: `DSS.write_rts` raises `WildcardError` for every destination path
with a (non-date) wildcard, in every engine state — before the engine's
write is reached (the result does not depend on the engine state). -/
theorem c6_write_rejects_wildcard_before_engine
    (s : PyHecDssEngine) (p : DatasetPath) (r : RegularTimeseries)
    (h : p.hasWildcard = true) :
    dssWriteRts s p r = .error .wildcardError := by
  simp [dssWriteRts, h]

/-- Witness for C6 at a concrete input (on a closed, never-opened engine no
backend write could even occur). -/
theorem c6_write_rejects_wildcard_witness :
    exAllWild.hasWildcard = true ∧
      dssWriteRts exClosedEngine exAllWild exRts = .error .wildcardError :=
  ⟨by decide,
   c6_write_rejects_wildcard_before_engine exClosedEngine exAllWild exRts
     (by decide)⟩

/-- C8 counterexample: `__post_init__` performs no length validation, so a
`RegularTimeseries` with `len(values) = 2` and `len(dates) = 1` is
constructed without error — refuting "raised immediately at construction
time". -/
theorem c8_construction_accepts_length_mismatch :
    RegularTimeseries.postInit exBadRts = .ok exBadRts ∧
      exBadRts.values.length ≠ exBadRts.dates.length :=
  ⟨rfl, by decide⟩

/-- C8 (amended): the `len(values) == len(dates)` invariant is enforced only
by `update`, which raises `ValueError` whenever the updated arrays disagree
in length; construction itself performs no such check. -/
theorem c8_update_checks_lengths
    (r : RegularTimeseries) (v d : List Int)
    (h : v.length ≠ d.length) :
    r.update (some v) (some d) = .error .valueError := by
  have htr : (RegularTimeseries.truthy (some v) ||
      RegularTimeseries.truthy (some d)) = true := by
    rcases v with _ | ⟨a, v'⟩
    · rcases d with _ | ⟨b, d'⟩
      · simp at h
      · simp [RegularTimeseries.truthy]
    · simp [RegularTimeseries.truthy]
  simp [RegularTimeseries.update, htr, h]

/-- Witness for the amended C8 theorem at a concrete input. -/
theorem c8_update_checks_lengths_witness :
    ([1] : List Int).length ≠ ([10, 20] : List Int).length ∧
      exRts.update (some [1]) (some [10, 20]) = .error .valueError :=
  ⟨by decide, c8_update_checks_lengths exRts [1] [10, 20] (by decide)⟩

/-- C9: interval ordering compares the approximate `seconds` values — with
the fixed 365-day-year / 30-day-month convention — so
`Interval("1MON") < Interval("1Year")`, and `Interval("10MIN").seconds`
is exactly 600. -/
theorem c9_interval_ordering_and_seconds :
    ((Interval.ofToken ['1', 'M', 'O', 'N']).bind fun i =>
        (Interval.ofToken ['1', 'Y', 'e', 'a', 'r']).bind fun j =>
          i.ltE j) = .ok true ∧
      (Interval.ofToken ['1', '0', 'M', 'I', 'N']).bind Interval.secondsE =
        .ok 600 ∧
      (Interval.ofToken ['1', 'M', 'O', 'N']).bind Interval.secondsE =
        .ok (30 * 24 * 60 * 60) ∧
      (Interval.ofToken ['1', 'Y', 'e', 'a', 'r']).bind Interval.secondsE =
        .ok (365 * 24 * 60 * 60) := by
  refine ⟨rfl, rfl, rfl, rfl⟩

/-! ### String lemmas shared by the path round-trip and the resolution
soundness proofs -/

theorem intercalate_cons₂ (x : α) (a b : List α) (t : List (List α)) :
    List.intercalate [x] (a :: b :: t) = a ++ x :: List.intercalate [x] (b :: t) := by
  simp [List.intercalate, List.intersperse]

theorem intercalate_one (x : α) (a : List α) : List.intercalate [x] [a] = a := by
  simp [List.intercalate]

theorem lstripChar_eq_of_head (ch c : Char) (t : PyStr) (h : c ≠ ch) :
    lstripChar ch (c :: t) = c :: t := by
  simp [lstripChar, List.dropWhile_cons, h]

theorem rstripChar_frame (mid : PyStr) (c : Char) (t : PyStr)
    (hrev : mid.reverse = c :: t) (hc : c ≠ '/') :
    rstripChar '/' ('/' :: mid ++ ['/']) = '/' :: mid := by
  have h1 : ('/' :: mid ++ ['/']).reverse = '/' :: (mid.reverse ++ ['/']) := by
    simp
  rw [rstripChar, h1]
  rw [List.dropWhile_cons]
  simp only [decide_eq_true_eq, if_pos rfl]
  rw [hrev]
  rw [List.cons_append, List.dropWhile_cons]
  simp only [hc, decide_eq_true_eq, if_neg hc]
  rw [← List.cons_append, ← hrev]
  simp

theorem stripChar_frame (mid : PyStr) (c₀ cₗ : Char) (t₀ tₗ : PyStr)
    (hh : mid = c₀ :: t₀) (hrev : mid.reverse = cₗ :: tₗ)
    (h₀ : c₀ ≠ '/') (hₗ : cₗ ≠ '/') :
    stripChar '/' ('/' :: mid ++ ['/']) = mid := by
  rw [stripChar, rstripChar_frame mid cₗ tₗ hrev hₗ, hh,
    lstripChar]
  rw [List.dropWhile_cons]
  simp only [decide_eq_true_eq, if_pos rfl]
  rw [List.dropWhile_cons]
  simp [h₀]

theorem head_mem_self {c : Char} {t : PyStr} : c ∈ c :: t := List.mem_cons_self c t

/-- The six parts of a path, each nonempty, give the joined core string a
non-`/` first character. -/
theorem intercalate_parts_head (p : DatasetPath) (c₀ : Char) (t₀ : PyStr)
    (ha : p.a = c₀ :: t₀) :
    List.intercalate ['/'] p.parts = c₀ :: (t₀ ++ '/' ::
      List.intercalate ['/'] [p.b, p.c, p.d, p.e, p.f]) := by
  rw [DatasetPath.parts, intercalate_cons₂, ha]
  rfl

/-- The joined core string of a path ends with the last character of the F
part. -/
theorem intercalate_parts_getLast (p : DatasetPath) (h : p.f ≠ []) :
    ∃ cₗ tₗ, (List.intercalate ['/'] p.parts).reverse = cₗ :: tₗ ∧ cₗ ∈ p.f := by
  have hrw : List.intercalate ['/'] p.parts =
      (p.a ++ '/' :: (p.b ++ '/' :: (p.c ++ '/' :: (p.d ++ '/' :: p.e)))) ++
        '/' :: p.f := by
    rw [DatasetPath.parts, intercalate_cons₂, intercalate_cons₂,
      intercalate_cons₂, intercalate_cons₂, intercalate_cons₂, intercalate_one]
    simp
  rcases List.eq_nil_or_concat p.f with hf | ⟨l, cₗ, hf⟩
  · exact absurd hf h
  · refine ⟨cₗ, l.reverse ++ '/' ::
      (p.a ++ '/' :: (p.b ++ '/' :: (p.c ++ '/' :: (p.d ++ '/' :: p.e)))).reverse,
      ?_, by rw [hf]; simp⟩
    rw [hrw, hf]
    simp

/-- Stripping the `/` frame from a canonical path string recovers the joined
parts, provided the parts are nonempty and `/`-free. -/
theorem stripChar_pathStr (p : DatasetPath)
    (h : ∀ s ∈ p.parts, s ≠ [] ∧ '/' ∉ s) :
    stripChar '/' p.pathStr = List.intercalate ['/'] p.parts := by
  have ha := h p.a (by simp [DatasetPath.parts])
  have hf := h p.f (by simp [DatasetPath.parts])
  rcases ha with ⟨hane, hasl⟩
  rcases List.exists_cons_of_ne_nil hane with ⟨c₀, t₀, hc₀⟩
  rcases intercalate_parts_getLast p hf.1 with ⟨cₗ, tₗ, hrev, hclmem⟩
  have hhead := intercalate_parts_head p c₀ t₀ hc₀
  rw [DatasetPath.pathStr]
  exact stripChar_frame _ c₀ cₗ _ _ hhead hrev
    (fun heq => hasl (by rw [hc₀, heq]; exact head_mem_self))
    (fun heq => hf.2 (heq ▸ hclmem))

/-- C7: for every 6-tuple of valid parts — nonempty, not the bare wildcard
`"*"`, and free of the `/` delimiter — `from_str(str(DatasetPath(*parts)))`
returns the original `DatasetPath`. -/
theorem c7_from_str_roundtrip (p : DatasetPath)
    (h : ∀ s ∈ p.parts, s ≠ [] ∧ s ≠ ['*'] ∧ '/' ∉ s) :
    DatasetPath.fromStr p.pathStr = .ok p := by
  have hstrip : stripChar '/' p.pathStr = List.intercalate ['/'] p.parts :=
    stripChar_pathStr p (fun s hs => ⟨(h s hs).1, (h s hs).2.2⟩)
  have hsplit : (List.intercalate ['/'] p.parts).splitOn '/' = p.parts :=
    List.splitOn_intercalate p.parts '/' (fun l hl => (h l hl).2.2)
      (by simp [DatasetPath.parts])
  have hnorm : ∀ s ∈ p.parts, ¬(s = [] ∨ s = ['*']) := by
    intro s hs hor
    rcases hor with h1 | h2
    · exact (h s hs).1 h1
    · exact (h s hs).2.1 h2
  have hA := hnorm p.a (by simp [DatasetPath.parts])
  have hB := hnorm p.b (by simp [DatasetPath.parts])
  have hC := hnorm p.c (by simp [DatasetPath.parts])
  have hD := hnorm p.d (by simp [DatasetPath.parts])
  have hE := hnorm p.e (by simp [DatasetPath.parts])
  have hF := hnorm p.f (by simp [DatasetPath.parts])
  rw [DatasetPath.fromStr, hstrip, hsplit, DatasetPath.parts]
  simp only [List.map_cons, List.map_nil, if_neg hA, if_neg hB, if_neg hC,
    if_neg hD, if_neg hE, if_neg hF]

/-- C3 counterexample: `matches` is not symmetric.  For
`L = /a.*/xb/c/d/e/f/` and `R = /.*a/.*/c/d/e/f/` the A parts subsume each
other in both directions (recorded as left-to-right only) and the B parts
subsume right-to-left, so `L.matches(R)` trips the multi-direction rejection
and returns `False` while `R.matches(L)` records only left-to-right flags
and returns `True`.  Moreover a pair whose sole differing parts subsume
*bidirectionally* (`/a.*/…/` vs `/.*a/…/`) is treated as a match by both
call orders, not as a non-match as claimed. -/
theorem c3_matches_not_symmetric :
    DatasetPath.pathMatches exAsymL exAsymR = false ∧
      DatasetPath.pathMatches exAsymR exAsymL = true ∧
      DatasetPath.pathMatches exBidirL exBidirR = true ∧
      DatasetPath.pathMatches exBidirR exBidirL = true := by
  refine ⟨by decide, by decide, by decide, by decide⟩

/-- The per-part loop is symmetric (with the flags exchanged) whenever no
pair of differing parts subsumes in both directions. -/
theorem matchLoop_swap (prs : List (PyStr × PyStr)) (lr rl : Bool)
    (h : ∀ pr ∈ prs, pr.1 = pr.2 ∨
        ¬(DatasetPath.subsumes pr.1 pr.2 = true ∧
          DatasetPath.subsumes pr.2 pr.1 = true)) :
    DatasetPath.matchLoop prs lr rl =
      DatasetPath.matchLoop (prs.map Prod.swap) rl lr := by
  induction prs generalizing lr rl with
  | nil => simp [DatasetPath.matchLoop, Bool.and_comm]
  | cons pr rest ih =>
    obtain ⟨L, R⟩ := pr
    have hhead := h (L, R) (by simp)
    have hrest := fun pr hpr => h pr (List.mem_cons_of_mem _ hpr)
    by_cases hLR : L = R
    · subst hLR
      simpa [DatasetPath.matchLoop] using ih lr rl hrest
    · have hboth : ¬(DatasetPath.subsumes L R = true ∧
          DatasetPath.subsumes R L = true) := by
        rcases hhead with h1 | h2
        · exact absurd h1 hLR
        · exact h2
      by_cases s1 : DatasetPath.subsumes L R = true
      · have s2 : DatasetPath.subsumes R L = false := by
          rcases Bool.eq_false_or_eq_true (DatasetPath.subsumes R L) with h' | h'
          · exact absurd ⟨s1, h'⟩ hboth
          · exact h'
        simpa [DatasetPath.matchLoop, hLR, Ne.symm hLR, s1, s2]
          using ih true rl hrest
      · have s1' : DatasetPath.subsumes L R = false := by
          rcases Bool.eq_false_or_eq_true (DatasetPath.subsumes L R) with h' | h'
          · exact absurd h' s1
          · exact h'
        by_cases s3 : DatasetPath.subsumes R L = true
        · simpa [DatasetPath.matchLoop, hLR, Ne.symm hLR, s1', s3]
            using ih lr true hrest
        · have s3' : DatasetPath.subsumes R L = false := by
            rcases Bool.eq_false_or_eq_true (DatasetPath.subsumes R L) with h' | h'
            · exact absurd h' s3
            · exact h'
          simp [DatasetPath.matchLoop, hLR, Ne.symm hLR, s1', s3']

/-- C3 (amended): `matches` is symmetric for every pair of paths in which no
pair of corresponding differing parts subsumes in both directions; when a
part does subsume bidirectionally, both call orders record it as a
left-to-right match, and symmetry can fail only by combining such a part
with another part matching in the opposite direction. -/
theorem c3_matches_symmetric_without_bidirectional_parts
    (p q : DatasetPath)
    (h : ∀ pr ∈ p.parts.zip q.parts, pr.1 = pr.2 ∨
        ¬(DatasetPath.subsumes pr.1 pr.2 = true ∧
          DatasetPath.subsumes pr.2 pr.1 = true)) :
    DatasetPath.pathMatches p q = DatasetPath.pathMatches q p := by
  have hzip : q.parts.zip p.parts = (p.parts.zip q.parts).map Prod.swap := rfl
  by_cases hw : (!p.hasAnyWildcard && !q.hasAnyWildcard) = true
  · have hw' : (!q.hasAnyWildcard && !p.hasAnyWildcard) = true := by
      rw [Bool.and_comm]; exact hw
    rw [DatasetPath.pathMatches, if_pos hw, DatasetPath.pathMatches,
      if_pos hw']
    exact decide_eq_decide.mpr ⟨Eq.symm, Eq.symm⟩
  · have hw' : ¬(!q.hasAnyWildcard && !p.hasAnyWildcard) = true := by
      rw [Bool.and_comm]; exact hw
    rw [DatasetPath.pathMatches, if_neg hw, DatasetPath.pathMatches,
      if_neg hw', hzip]
    exact matchLoop_swap _ false false h

/-- Witness for the amended C3 theorem at a concrete input. -/
theorem c3_matches_symmetric_witness :
    DatasetPath.pathMatches exPathABCDEF exAllWild =
      DatasetPath.pathMatches exAllWild exPathABCDEF :=
  c3_matches_symmetric_without_bidirectional_parts _ _ (by decide)

/-! ### Lemmas about `intersect1d` and mask selection -/

theorem intersect1d_mem (x y : List Int) (a : Int) :
    a ∈ RegularTimeseries.intersect1d x y ↔ a ∈ x ∧ a ∈ y := by
  unfold RegularTimeseries.intersect1d
  rw [(List.mergeSort_perm _ _).mem_iff]
  simp

theorem filter_mem_toFinset (x y : List Int) :
    (x.filter fun a => decide (a ∈ y)).toFinset = x.toFinset ∩ y.toFinset := by
  ext a
  simp [List.mem_filter]

theorem filter_mem_length (x y : List Int) (hx : x.Nodup) :
    (x.filter fun a => decide (a ∈ y)).length =
      (x.toFinset ∩ y.toFinset).card := by
  rw [← filter_mem_toFinset, List.toFinset_card_of_nodup (hx.filter _)]

theorem intersect1d_length (x y : List Int) (hx : x.Nodup) :
    (RegularTimeseries.intersect1d x y).length =
      (x.toFinset ∩ y.toFinset).card := by
  unfold RegularTimeseries.intersect1d
  rw [(List.mergeSort_perm _ _).length_eq,
    List.dedup_eq_self.mpr (hx.filter _)]
  exact filter_mem_length x y hx

theorem maskSelect_length (dates : List Int) :
    ∀ values : List Int, values.length = dates.length →
      ∀ keep : List Int,
        (RegularTimeseries.maskSelect dates values keep).length =
          (dates.filter fun a => decide (a ∈ keep)).length := by
  induction dates with
  | nil => intro values h keep; simp [RegularTimeseries.maskSelect]
  | cons d ds ih =>
    intro values h keep
    rcases values with _ | ⟨v, vs⟩
    · simp at h
    · have h' : vs.length = ds.length := by simpa using h
      by_cases hd : d ∈ keep
      · simp [RegularTimeseries.maskSelect, List.filter, hd]
        simpa [RegularTimeseries.maskSelect] using ih vs h' keep
      · simp [RegularTimeseries.maskSelect, List.filter, hd]
        simpa [RegularTimeseries.maskSelect] using ih vs h' keep

theorem maskSelect_card (x y : List Int) (values : List Int)
    (hlen : values.length = x.length) (hx : x.Nodup) :
    (RegularTimeseries.maskSelect x values
        (RegularTimeseries.intersect1d x y)).length =
      (x.toFinset ∩ y.toFinset).card := by
  rw [maskSelect_length x values hlen]
  have hcongr : (x.filter fun a =>
      decide (a ∈ RegularTimeseries.intersect1d x y)) =
      x.filter fun a => decide (a ∈ y) := by
    apply List.filter_congr
    intro a ha
    apply decide_eq_decide.mpr
    rw [intersect1d_mem]
    exact ⟨fun h => h.2, fun h => ⟨ha, h⟩⟩
  rw [hcongr]
  exact filter_mem_length x y hx

/-- C4: for timeseries with well-formed (duplicate-free, length-matched)
arrays, `+` succeeds exactly when interval, period type and units agree, and
then aligns on the intersection of the date arrays: the result's dates are
`intersect1d` of the two date arrays, its date-set is the set intersection,
and its length is the intersection's size (an inner join, not a union);
when interval, period type or units differ the operation raises instead. -/
theorem c4_add_inner_join_and_mismatch_fails
    (r s : RegularTimeseries)
    (hvr : r.values.length = r.dates.length)
    (hvs : s.values.length = s.dates.length)
    (hnr : r.dates.Nodup) (hns : s.dates.Nodup) :
    (r.interval.offset = s.interval.offset → r.period_type = s.period_type →
      r.units = s.units →
      ∃ t, r.addRts s = .ok t ∧
        t.dates = RegularTimeseries.intersect1d r.dates s.dates ∧
        t.dates.toFinset = r.dates.toFinset ∩ s.dates.toFinset ∧
        t.values.length = (r.dates.toFinset ∩ s.dates.toFinset).card ∧
        t.dates.length = t.values.length) ∧
    (r.interval.offset ≠ s.interval.offset ∨ r.period_type ≠ s.period_type ∨
      r.units ≠ s.units → r.addRts s = .error .valueError) := by
  constructor
  · intro h1 h2 h3
    refine ⟨_, by rw [RegularTimeseries.addRts, if_neg (by simpa using h1),
      if_neg (by simpa using h2), if_neg (by simpa using h3)], rfl, ?_, ?_, ?_⟩
    · ext a
      rw [List.mem_toFinset, intersect1d_mem]
      simp
    · rw [List.length_zipWith,
        maskSelect_card r.dates s.dates r.values hvr hnr]
      have hright : (RegularTimeseries.maskSelect s.dates s.values
          (RegularTimeseries.intersect1d r.dates s.dates)).length =
          (s.dates.toFinset ∩ r.dates.toFinset).card := by
        have hcomm : RegularTimeseries.intersect1d r.dates s.dates =
            (RegularTimeseries.intersect1d r.dates s.dates) := rfl
        rw [maskSelect_length s.dates s.values hvs]
        have hcongr : (s.dates.filter fun a =>
            decide (a ∈ RegularTimeseries.intersect1d r.dates s.dates)) =
            s.dates.filter fun a => decide (a ∈ r.dates) := by
          apply List.filter_congr
          intro a ha
          apply decide_eq_decide.mpr
          rw [intersect1d_mem]
          exact ⟨fun h => h.1, fun h => ⟨h, ha⟩⟩
        rw [hcongr]
        exact filter_mem_length s.dates r.dates hns
      rw [hright, Finset.inter_comm, min_self]
    · rw [intersect1d_length r.dates s.dates hnr, List.length_zipWith,
        maskSelect_card r.dates s.dates r.values hvr hnr]
      have hright : (RegularTimeseries.maskSelect s.dates s.values
          (RegularTimeseries.intersect1d r.dates s.dates)).length =
          (s.dates.toFinset ∩ r.dates.toFinset).card := by
        rw [maskSelect_length s.dates s.values hvs]
        have hcongr : (s.dates.filter fun a =>
            decide (a ∈ RegularTimeseries.intersect1d r.dates s.dates)) =
            s.dates.filter fun a => decide (a ∈ r.dates) := by
          apply List.filter_congr
          intro a ha
          apply decide_eq_decide.mpr
          rw [intersect1d_mem]
          exact ⟨fun h => h.1, fun h => ⟨h, ha⟩⟩
        rw [hcongr]
        exact filter_mem_length s.dates r.dates hns
      rw [hright, Finset.inter_comm, min_self]
  · intro h
    rcases h with h1 | h2 | h3
    · rw [RegularTimeseries.addRts, if_pos (by simpa using h1)]
    · by_cases h1 : r.interval.offset = s.interval.offset
      · rw [RegularTimeseries.addRts, if_neg (by simpa using h1),
          if_pos (by simpa using h2)]
      · rw [RegularTimeseries.addRts, if_pos (by simpa using h1)]
    · by_cases h1 : r.interval.offset = s.interval.offset
      · by_cases h2 : r.period_type = s.period_type
        · rw [RegularTimeseries.addRts, if_neg (by simpa using h1),
            if_neg (by simpa using h2), if_pos (by simpa using h3)]
        · rw [RegularTimeseries.addRts, if_neg (by simpa using h1),
            if_pos (by simpa using h2)]
      · rw [RegularTimeseries.addRts, if_pos (by simpa using h1)]

/-- Witness for C4 at concrete inputs: two series with equal units, period
type and interval whose date arrays overlap in two of three entries sum to a
length-2 result, and a differing-units pair fails. -/
theorem c4_add_witness :
    (∃ t, exRts.addRts
          ⟨exPathGHIJKL, [5, 6], [20, 30], ['P', 'E', 'R'], ['C', 'F', 'S'],
            exIntervalMon⟩ = .ok t ∧
        t.dates = RegularTimeseries.intersect1d [10, 20] [20, 30] ∧
        t.dates.toFinset =
          ([10, 20] : List Int).toFinset ∩ ([20, 30] : List Int).toFinset ∧
        t.values.length =
          (([10, 20] : List Int).toFinset ∩
            ([20, 30] : List Int).toFinset).card ∧
        t.dates.length = t.values.length) ∧
      exRts.addRts { exRts with units := ['T', 'A', 'F'] } =
        .error .valueError :=
  ⟨(c4_add_inner_join_and_mismatch_fails exRts
      ⟨exPathGHIJKL, [5, 6], [20, 30], ['P', 'E', 'R'], ['C', 'F', 'S'],
        exIntervalMon⟩ (by decide) (by decide) (by decide) (by decide)).1
      rfl rfl rfl,
   (c4_add_inner_join_and_mismatch_fails exRts
      { exRts with units := ['T', 'A', 'F'] } (by decide) (by decide)
      (by decide) (by decide)).2 (Or.inr (Or.inr (by decide)))⟩

/-- Witness for C7 at a concrete input (with a wildcard part, which is a
valid part and round-trips unchanged). -/
theorem c7_from_str_roundtrip_witness :
    (∀ s ∈ (DatasetPath.parts ⟨['A'], wild, ['C'], ['D'], ['E'], ['F']⟩),
        s ≠ [] ∧ s ≠ ['*'] ∧ '/' ∉ s) ∧
      DatasetPath.fromStr
          (DatasetPath.pathStr ⟨['A'], wild, ['C'], ['D'], ['E'], ['F']⟩) =
        .ok ⟨['A'], wild, ['C'], ['D'], ['E'], ['F']⟩ :=
  ⟨by decide, c7_from_str_roundtrip _ (by decide)⟩

/-! ### Soundness of the single-scan wildcard resolution (C10) -/

theorem lowerChar_eq_slash {x : Char} (h : lowerChar x = '/') : x = '/' := by
  unfold lowerChar at h
  split at h <;> first | exact h | exact absurd h (by decide)

theorem lowerChar_eq_nl {x : Char} (h : lowerChar x = '\n') : x = '\n' := by
  unfold lowerChar at h
  split at h <;> first | exact h | exact absurd h (by decide)

theorem ceq_slash {ci : Bool} {x : Char} (h : ceq ci '/' x = true) :
    x = '/' := by
  rcases Bool.or_eq_true_iff.mp h with h' | h'
  · exact (decide_eq_true_eq.mp h').symm
  · have := (Bool.and_eq_true _ _).mp h'
    have h2 : lowerChar '/' = lowerChar x := decide_eq_true_eq.mp this.2
    exact lowerChar_eq_slash (by rw [← h2]; rfl)

theorem ceq_ne_nl {ci : Bool} {c x : Char} (hc : c ≠ '\n')
    (h : ceq ci c x = true) : x ≠ '\n' := by
  intro hx
  subst hx
  rcases Bool.or_eq_true_iff.mp h with h' | h'
  · exact hc (decide_eq_true_eq.mp h')
  · have := (Bool.and_eq_true _ _).mp h'
    have h2 : lowerChar c = lowerChar '\n' := decide_eq_true_eq.mp this.2
    exact hc (lowerChar_eq_nl (by rw [h2]; rfl))

theorem starLoop_some (f : PyStr → Option Nat) (s : PyStr) :
    ∀ k m, starLoop f s k = some m →
      ∃ j, j ≤ k ∧ ∃ m', f (s.drop j) = some m' ∧ m = j + m' := by
  intro k
  induction k with
  | zero =>
    intro m h
    exact ⟨0, Nat.le_refl 0, m, by simpa [starLoop] using h, by simp⟩
  | succ k ih =>
    intro m h
    unfold starLoop at h
    cases hf : f (s.drop (k + 1)) with
    | some m' =>
      rw [hf] at h
      injection h with h
      exact ⟨k + 1, Nat.le_refl _, m', hf, h.symm⟩
    | none =>
      rw [hf] at h
      rcases ih m h with ⟨j, hj, m', hfm, hm⟩
      exact ⟨j, Nat.le_succ_of_le hj, m', hfm, hm⟩

theorem take_dotMax_no_nl (s : PyStr) :
    ∀ j, j ≤ dotMax s → '\n' ∉ s.take j := by
  induction s with
  | nil => intro j _; simp
  | cons c t ih =>
    intro j hj
    unfold dotMax at hj
    by_cases hc : c = '\n'
    · rw [if_pos hc] at hj
      interval_cases j
      simp
    · rw [if_neg hc] at hj
      cases j with
      | zero => simp
      | succ j =>
        rw [List.take_succ_cons]
        intro hmem
        rcases List.mem_cons.mp hmem with h' | h'
        · exact hc h'.symm
        · exact ih j (Nat.le_of_succ_le_succ hj) h'

theorem matchTok_no_nl (ci : Bool) :
    ∀ (toks : List Tok) (s : PyStr) (m : Nat),
      (∀ c, Tok.lit c ∈ toks → c ≠ '\n') → matchTok ci toks s = some m →
      '\n' ∉ s.take m := by
  intro toks
  induction toks with
  | nil =>
    intro s m _ h
    unfold matchTok at h
    injection h with h
    subst h
    simp
  | cons t rest ih =>
    intro s m hnl h
    cases t with
    | lit c =>
      cases s with
      | nil => simp [matchTok] at h
      | cons x xs =>
        unfold matchTok at h
        by_cases hc : ceq ci c x = true
        · rw [if_pos hc] at h
          cases hm : matchTok ci rest xs with
          | none => rw [hm] at h; simp at h
          | some m' =>
            rw [hm] at h
            simp only [Option.map] at h
            injection h with h
            subst h
            rw [List.take_succ_cons]
            intro hmem
            rcases List.mem_cons.mp hmem with h' | h'
            · exact ceq_ne_nl (hnl c (by simp)) hc h'.symm
            · exact ih xs m' (fun c' hc' => hnl c' (List.mem_cons_of_mem _ hc'))
                hm h'
        · rw [if_neg hc] at h; exact absurd h (by simp)
    | star =>
      unfold matchTok at h
      rcases starLoop_some (matchTok ci rest) s (dotMax s) m h with
        ⟨j, hj, m', hfm, hm⟩
      subst hm
      rw [List.take_add]
      intro hmem
      rcases List.mem_append.mp hmem with h' | h'
      · exact take_dotMax_no_nl s j hj h'
      · exact ih (s.drop j) m'
          (fun c' hc' => hnl c' (List.mem_cons_of_mem _ hc')) hfm h'

theorem matchTok_slash (ci : Bool) :
    ∀ (toks : List Tok) (s : PyStr) (m : Nat), matchTok ci toks s = some m →
      List.count (Tok.lit '/') toks ≤ List.count '/' (s.take m) := by
  intro toks
  induction toks with
  | nil => intro s m h; simp
  | cons t rest ih =>
    intro s m h
    cases t with
    | lit c =>
      cases s with
      | nil => simp [matchTok] at h
      | cons x xs =>
        unfold matchTok at h
        by_cases hc : ceq ci c x = true
        · rw [if_pos hc] at h
          cases hm : matchTok ci rest xs with
          | none => rw [hm] at h; simp at h
          | some m' =>
            rw [hm] at h
            simp only [Option.map] at h
            injection h with h
            subst h
            rw [List.take_succ_cons, List.count_cons, List.count_cons]
            by_cases hcs : c = '/'
            · subst hcs
              have hx : x = '/' := ceq_slash hc
              subst hx
              simpa using Nat.add_le_add_right (ih xs m' hm) 1
            · have hts : (Tok.lit c == Tok.lit '/') = false := by
                simp [hcs]
              calc List.count (Tok.lit '/') rest +
                    (if Tok.lit c == Tok.lit '/' then 1 else 0)
                  = List.count (Tok.lit '/') rest := by rw [hts]; simp
                _ ≤ List.count '/' (xs.take m') := ih xs m' hm
                _ ≤ List.count '/' (xs.take m') +
                      (if x == '/' then 1 else 0) := Nat.le_add_right _ _
        · rw [if_neg hc] at h; exact absurd h (by simp)
    | star =>
      unfold matchTok at h
      rcases starLoop_some (matchTok ci rest) s (dotMax s) m h with
        ⟨j, hj, m', hfm, hm⟩
      subst hm
      rw [List.take_add, List.count_append, List.count_cons]
      have h1 : List.count (Tok.lit '/') rest ≤
          List.count '/' ((s.drop j).take m') := ih (s.drop j) m' hfm
      simpa using le_trans h1 (Nat.le_add_left _ _)

theorem findAllAux_succ (ci : Bool) (toks : List Tok) (fuel : Nat)
    (s : PyStr) :
    findAllAux ci toks (fuel + 1) s =
      match matchTok ci toks s with
      | some m =>
        if m = 0 then
          [] :: (match s with
            | [] => []
            | _ :: t => findAllAux ci toks fuel t)
        else
          s.take m :: findAllAux ci toks fuel (s.drop m)
      | none =>
        match s with
        | [] => []
        | _ :: t => findAllAux ci toks fuel t := rfl

theorem findAllAux_mem (ci : Bool) (toks : List Tok) :
    ∀ (fuel : Nat) (s r : PyStr), r ∈ findAllAux ci toks fuel s →
      ∃ i m, matchTok ci toks (s.drop i) = some m ∧ r = (s.drop i).take m := by
  intro fuel
  induction fuel with
  | zero => intro s r h; simp [findAllAux] at h
  | succ fuel ih =>
    intro s r h
    rw [findAllAux_succ] at h
    cases hm : matchTok ci toks s with
    | some m =>
      rw [hm] at h
      simp only [] at h
      by_cases hz : m = 0
      · rw [if_pos hz] at h
        rcases List.mem_cons.mp h with h' | h'
        · subst hz; exact ⟨0, 0, by simpa using hm, by simp [h']⟩
        · cases s with
          | nil => simp at h'
          | cons x xs =>
            rcases ih xs r h' with ⟨i, m', hmt, hr⟩
            exact ⟨i + 1, m', by simpa using hmt, by simpa using hr⟩
      · rw [if_neg hz] at h
        rcases List.mem_cons.mp h with h' | h'
        · exact ⟨0, m, by simpa using hm, by simpa using h'⟩
        · rcases ih (s.drop m) r h' with ⟨i, m', hmt, hr⟩
          refine ⟨m + i, m', ?_, ?_⟩
          · rw [← List.drop_drop]; exact hmt
          · rw [← List.drop_drop]; exact hr
    | none =>
      rw [hm] at h
      simp only [] at h
      cases s with
      | nil => simp at h
      | cons x xs =>
        rcases ih xs r h with ⟨i, m', hmt, hr⟩
        exact ⟨i + 1, m', by simpa using hmt, by simpa using hr⟩

theorem intercalate_nil_sep (x : α) : List.intercalate [x] ([] : List (List α)) = [] := by
  simp [List.intercalate]

/-- A newline-free block at the start of `x ++ '\n' :: rest` lies inside
`x`. -/
theorem block_start_of_nl (r : PyStr) :
    ∀ (q x rest : PyStr), r ++ q = x ++ '\n' :: rest → '\n' ∉ r →
      ∃ q2, r ++ q2 = x := by
  induction r with
  | nil => intro q x rest _ _; exact ⟨x, rfl⟩
  | cons c r' ih =>
    intro q x rest heq hnl
    cases x with
    | nil =>
      simp only [List.nil_append, List.cons_append] at heq
      obtain ⟨hc, _⟩ := List.cons.inj heq
      exact absurd (List.mem_cons.mpr (Or.inl hc.symm)) hnl
    | cons a x' =>
      simp only [List.cons_append] at heq
      obtain ⟨hca, htl⟩ := List.cons.inj heq
      rcases ih q x' rest htl (fun hm => hnl (List.mem_cons_of_mem _ hm)) with
        ⟨q2, hq2⟩
      exact ⟨q2, by rw [List.cons_append, hq2, hca]⟩

/-- A newline-free block inside `x ++ '\n' :: rest` lies inside `x` or
inside `rest`. -/
theorem block_of_nl (pre : PyStr) :
    ∀ (r post x rest : PyStr), pre ++ r ++ post = x ++ '\n' :: rest →
      '\n' ∉ r →
      (∃ p q, p ++ r ++ q = x) ∨ ∃ p q, p ++ r ++ q = rest := by
  induction pre with
  | nil =>
    intro r post x rest heq hnl
    rcases block_start_of_nl r post x rest (by simpa using heq) hnl with
      ⟨q2, hq2⟩
    exact Or.inl ⟨[], q2, by simpa using hq2⟩
  | cons c pre' ih =>
    intro r post x rest heq hnl
    cases x with
    | nil =>
      simp only [List.nil_append, List.cons_append] at heq
      obtain ⟨_, htl⟩ := List.cons.inj heq
      exact Or.inr ⟨pre', post, by simpa using htl⟩
    | cons a x' =>
      simp only [List.cons_append] at heq
      obtain ⟨hca, htl⟩ := List.cons.inj heq
      rcases ih r post x' rest htl hnl with ⟨p, q, hpq⟩ | hr
      · exact Or.inl ⟨a :: p, q, by simpa using congrArg (List.cons a) hpq⟩
      · exact Or.inr hr

/-- A newline-free block of the newline-joined buffer lies inside one of its
lines (or is empty, when there are no lines). -/
theorem block_of_intercalate_nl :
    ∀ (lines : List PyStr) (pre r post : PyStr),
      pre ++ r ++ post = List.intercalate ['\n'] lines → '\n' ∉ r →
      r = [] ∨ ∃ L ∈ lines, ∃ p q, p ++ r ++ q = L := by
  intro lines
  induction lines with
  | nil =>
    intro pre r post heq _
    rw [intercalate_nil_sep] at heq
    rcases List.append_eq_nil.mp heq with ⟨h1, _⟩
    rcases List.append_eq_nil.mp h1 with ⟨_, hr⟩
    exact Or.inl hr
  | cons x rest ih =>
    intro pre r post heq hnl
    cases rest with
    | nil =>
      rw [intercalate_one] at heq
      exact Or.inr ⟨x, List.mem_cons_self x [], pre, post, heq⟩
    | cons y t =>
      rw [intercalate_cons₂] at heq
      rcases block_of_nl pre r post x (List.intercalate ['\n'] (y :: t))
          (by simpa using heq) hnl with ⟨p, q, hpq⟩ | ⟨p, q, hpq⟩
      · exact Or.inr ⟨x, List.mem_cons_self x _, p, q, hpq⟩
      · rcases ih p r q hpq hnl with hr | ⟨L, hL, hinf⟩
        · exact Or.inl hr
        · exact Or.inr ⟨L, List.mem_cons_of_mem _ hL, hinf⟩

/-- The `/` count of a delimiter-joined list of parts. -/
theorem count_slash_intercalate :
    ∀ (ps : List PyStr), ps ≠ [] →
      List.count '/' (List.intercalate ['/'] ps) =
        ps.length - 1 + (ps.map (List.count '/')).sum := by
  intro ps
  induction ps with
  | nil => intro h; exact absurd rfl h
  | cons a rest ih =>
    intro _
    cases rest with
    | nil => simp [intercalate_one]
    | cons b t =>
      rw [intercalate_cons₂, List.count_append, List.count_cons_self,
        ih (by simp)]
      simp only [List.map_cons, List.sum_cons, List.length_cons]
      omega

/-- Every canonical path string holds at least the 7 frame slashes. -/
theorem count_slash_pathStr (p : DatasetPath) :
    List.count '/' p.pathStr = 7 + (p.parts.map (List.count '/')).sum := by
  rw [DatasetPath.pathStr, List.count_append, List.count_cons_self,
    count_slash_intercalate p.parts (by simp [DatasetPath.parts])]
  simp [DatasetPath.parts]
  omega

/-- A path whose parts are `/`-free has exactly the 7 frame slashes. -/
theorem count_slash_pathStr_clean (p : DatasetPath)
    (h : ∀ s ∈ p.parts, '/' ∉ s) : List.count '/' p.pathStr = 7 := by
  rw [count_slash_pathStr]
  have hz : (p.parts.map (List.count '/')).sum = 0 := by
    apply List.sum_eq_zero
    intro x hx
    rcases List.mem_map.mp hx with ⟨s, hs, rfl⟩
    exact List.count_eq_zero.mpr (h s hs)
  omega

/-- Tokenizing preserves the number of `/` literals. -/
theorem tokenize_count_slash :
    ∀ s : PyStr, List.count (Tok.lit '/') (tokenize s) = List.count '/' s := by
  intro s
  induction s using tokenize.induct with
  | case1 rest ih => simp [tokenize, List.count_cons, ih]
  | case2 c rest h ih => simp [tokenize, List.count_cons, ih]
  | case3 => rfl

/-- Tokenizing a newline-free pattern produces no newline literal. -/
theorem tokenize_no_nl :
    ∀ s : PyStr, '\n' ∉ s → ∀ c, Tok.lit c ∈ tokenize s → c ≠ '\n' := by
  intro s
  induction s using tokenize.induct with
  | case1 rest ih =>
    intro hnl c hc
    simp only [tokenize] at hc
    rcases List.mem_cons.mp hc with h' | h'
    · exact absurd h' (by simp)
    · exact ih (fun hm => hnl (by simp [hm])) c h'
  | case2 c' rest h ih =>
    intro hnl c hc
    simp only [tokenize, h] at hc
    rcases List.mem_cons.mp hc with h' | h'
    · intro hceq
      injection h' with h''
      exact hnl (by simp [← h'', hceq])
    · exact ih (fun hm => hnl (List.mem_cons_of_mem _ hm)) c h'
  | case3 => intro _ c hc; simp [tokenize] at hc

/-- Characters of a joined list come from the separator or from a part. -/
theorem mem_intercalate_sep :
    ∀ (ps : List PyStr) (c : Char), c ∈ List.intercalate ['/'] ps →
      c = '/' ∨ ∃ s ∈ ps, c ∈ s := by
  intro ps
  induction ps with
  | nil => intro c hc; rw [intercalate_nil_sep] at hc; simp at hc
  | cons a rest ih =>
    intro c hc
    cases rest with
    | nil =>
      rw [intercalate_one] at hc
      exact Or.inr ⟨a, by simp, hc⟩
    | cons b t =>
      rw [intercalate_cons₂] at hc
      rcases List.mem_append.mp hc with h' | h'
      · exact Or.inr ⟨a, by simp, h'⟩
      · rcases List.mem_cons.mp h' with h'' | h''
        · exact Or.inl h''
        · rcases ih c h'' with h3 | ⟨s, hs, hcs⟩
          · exact Or.inl h3
          · exact Or.inr ⟨s, List.mem_cons_of_mem _ hs, hcs⟩

/-- A path string over newline-free parts is newline-free. -/
theorem pathStr_no_nl (p : DatasetPath) (h : ∀ s ∈ p.parts, '\n' ∉ s) :
    '\n' ∉ p.pathStr := by
  rw [DatasetPath.pathStr]
  intro hmem
  rcases List.mem_cons.mp hmem with h' | h'
  · exact absurd h' (by decide)
  · rcases List.mem_append.mp h' with h'' | h''
    · rcases mem_intercalate_sep p.parts '\n' h'' with h3 | ⟨s, hs, hcs⟩
      · exact absurd h3 (by decide)
      · exact h s hs hcs
    · exact absurd h'' (by decide)

/-- A block of a line that contains all 7 of its slashes is the whole
line. -/
theorem block_eq_line (line r pre post : PyStr)
    (heq : pre ++ r ++ post = line)
    (hcnt : 7 ≤ List.count '/' r) (hline : List.count '/' line = 7)
    (hhead : ∃ t, line = '/' :: t)
    (hlast : ∃ t, line.reverse = '/' :: t) :
    r = line := by
  have hsum : List.count '/' pre + List.count '/' r + List.count '/' post
      = 7 := by
    rw [← hline, ← heq]
    simp [List.count_append]
    omega
  have hpre0 : List.count '/' pre = 0 := by omega
  have hpost0 : List.count '/' post = 0 := by omega
  have hpre : pre = [] := by
    cases hp : pre with
    | nil => rfl
    | cons a pre' =>
      rcases hhead with ⟨t, ht⟩
      rw [hp, ht] at heq
      simp only [List.cons_append] at heq
      obtain ⟨ha, _⟩ := List.cons.inj heq
      rw [hp, ha, List.count_cons] at hpre0
      simp at hpre0
  have hpost : post = [] := by
    rcases List.eq_nil_or_concat post with hq | ⟨l, b, hq⟩
    · exact hq
    · exfalso
      rcases hlast with ⟨t, ht⟩
      have hrev : line.reverse = post.reverse ++ (r.reverse ++ pre.reverse) := by
        rw [← heq]
        simp
      rw [ht, hq] at hrev
      have hb : b = '/' := by
        have hh : ((l.concat b).reverse ++
            (r.reverse ++ pre.reverse)).head? = some '/' := by
          rw [← hrev]
          rfl
        rw [List.concat_eq_append] at hh
        simpa using hh
      rw [hq, hb] at hpost0
      simp [List.concat_eq_append, List.count_append] at hpost0
  subst hpre hpost
  simpa using heq

/-- `lstrip('/')` then `rstrip('/')` on a framed core recovers the core. -/
theorem strip2_frame (mid : PyStr) (c₀ cₗ : Char) (t₀ tₗ : PyStr)
    (hh : mid = c₀ :: t₀) (hrev : mid.reverse = cₗ :: tₗ)
    (h₀ : c₀ ≠ '/') (hₗ : cₗ ≠ '/') :
    rstripChar '/' (lstripChar '/' (('/' :: mid) ++ ['/'])) = mid := by
  have h1 : lstripChar '/' (('/' :: mid) ++ ['/']) = mid ++ ['/'] := by
    rw [List.cons_append, lstripChar, List.dropWhile_cons]
    simp only [decide_eq_true_eq, if_pos rfl]
    rw [hh, List.cons_append, List.dropWhile_cons]
    simp [h₀]
  rw [h1, rstripChar]
  have h2 : (mid ++ ['/']).reverse = '/' :: mid.reverse := by simp
  rw [h2, List.dropWhile_cons]
  simp only [decide_eq_true_eq, if_pos rfl]
  rw [hrev, List.dropWhile_cons]
  simp only [hₗ, decide_eq_true_eq, if_neg hₗ]
  rw [← hrev]
  simp

/-- The per-match post-processing of `resolve_wildcard` — strip the `/`
frame, then split on `/` — recovers exactly the parts of the matched
member. -/
theorem strip2_split_pathStr (q : DatasetPath)
    (h : ∀ s ∈ q.parts, s ≠ [] ∧ '/' ∉ s) :
    (rstripChar '/' (lstripChar '/' q.pathStr)).splitOn '/' = q.parts := by
  have ha := h q.a (by simp [DatasetPath.parts])
  have hf := h q.f (by simp [DatasetPath.parts])
  rcases List.exists_cons_of_ne_nil ha.1 with ⟨c₀, t₀, hc₀⟩
  rcases intercalate_parts_getLast q hf.1 with ⟨cₗ, tₗ, hrev, hclmem⟩
  have hhead := intercalate_parts_head q c₀ t₀ hc₀
  have hmid : rstripChar '/' (lstripChar '/' q.pathStr) =
      List.intercalate ['/'] q.parts := by
    rw [DatasetPath.pathStr]
    exact strip2_frame _ c₀ cₗ _ _ hhead hrev
      (fun heq => ha.2 (by rw [hc₀, heq]; exact head_mem_self))
      (fun heq => hf.2 (heq ▸ hclmem))
  rw [hmid]
  exact List.splitOn_intercalate q.parts '/' (fun l hl => (h l hl).2)
    (by simp [DatasetPath.parts])

/-- Building a path from its own six parts is the identity. -/
theorem mkPathFromArgs_parts (q : DatasetPath) :
    mkPathFromArgs q.parts = .ok q := rfl

theorem mapME_ok_mem (f : α → Except Err β) :
    ∀ (l : List α) (ys : List β), mapME f l = .ok ys →
      ∀ y ∈ ys, ∃ x ∈ l, f x = .ok y := by
  intro l
  induction l with
  | nil =>
    intro ys h y hy
    rw [mapME] at h
    injection h with h
    subst h
    simp at hy
  | cons x xs ih =>
    intro ys h y hy
    rw [mapME] at h
    cases hfx : f x with
    | error e => rw [hfx] at h; simp [Bind.bind, Except.bind] at h
    | ok y₀ =>
      rw [hfx] at h
      cases hrest : mapME f xs with
      | error e => rw [hrest] at h; simp [Bind.bind, Except.bind] at h
      | ok ys₀ =>
        rw [hrest] at h
        simp only [Bind.bind, Except.bind] at h
        injection h with h
        subst h
        rcases List.mem_cons.mp hy with h' | h'
        · exact ⟨x, by simp, by rw [hfx, h']⟩
        · rcases ih ys₀ hrest y h' with ⟨x', hx', hfx'⟩
          exact ⟨x', List.mem_cons_of_mem _ hx', hfx'⟩

theorem exceptMap_ok {α β : Type} {f : α → β} {e : Except Err α} {b : β}
    (h : Except.map f e = .ok b) : ∃ a, e = .ok a ∧ b = f a := by
  cases e with
  | error e' => simp [Except.map] at h
  | ok a =>
    simp only [Except.map] at h
    injection h with h
    exact ⟨a, rfl, h.symm⟩

/-- C10 counterexample: the collection `{//B/C/D/E/F/}` — whose single
member has the empty string as its A part, so every part is free of `/` and
newlines — resolved against the all-wildcard pattern returns the fabricated
path `/B/C/D/E/F/.*/`, which is not a member: the full-line match loses the
empty leading part to `lstrip('/')`, the 5-segment split is padded by the
`DatasetPath` defaults, and the resolution is unsound as claimed. -/
theorem c10_resolve_fabricates_path :
    DatasetPathCollection.resolveWildcard ⟨[exPathEmptyA]⟩ exAllWild =
        .ok ⟨[⟨['B'], ['C'], ['D'], ['E'], ['F'], wild⟩]⟩ ∧
      (⟨['B'], ['C'], ['D'], ['E'], ['F'], wild⟩ : DatasetPath) ∉
        [exPathEmptyA] ∧
      (∀ s ∈ exPathEmptyA.parts, '/' ∉ s ∧ '\n' ∉ s) := by
  refine ⟨by rfl, by decide, by decide⟩

/-- C10 (amended): resolution is sound — every path in the result of
`resolve_wildcard` is a member of the searched collection — provided the
members' parts are nonempty as well as `/`- and newline-free, and the
pattern's parts contain no newline.  (Nonemptiness and the newline-free
pattern are necessary: `c10_resolve_fabricates_path` breaks the former, and
a pattern part containing a literal newline can match across the
entry boundaries of the joined buffer.) -/
theorem c10_resolve_sound_on_clean_parts
    (c : DatasetPathCollection) (p : DatasetPath)
    (out : DatasetPathCollection)
    (hm : ∀ q ∈ c.paths, ∀ s ∈ q.parts, s ≠ [] ∧ '/' ∉ s ∧ '\n' ∉ s)
    (hp : ∀ s ∈ p.parts, '\n' ∉ s)
    (hok : c.resolveWildcard p = .ok out) :
    ∀ x ∈ out.paths, x ∈ c.paths := by
  intro x hx
  rw [DatasetPathCollection.resolveWildcard] at hok
  by_cases hguard : ((c.paths.any DatasetPath.hasAnyWildcard) &&
      p.hasWildcard) = true
  · rw [if_pos hguard] at hok
    exact absurd hok (by simp)
  · rw [if_neg hguard] at hok
    simp only [] at hok
    rcases exceptMap_ok hok with ⟨ps, hps, hout⟩
    subst hout
    simp only [] at hx
    have hxps : x ∈ ps := List.mem_dedup.mp hx
    rcases mapME_ok_mem mkPathFromArgs _ ps hps x hxps with ⟨args, hargs, hmk⟩
    rcases List.mem_map.mp hargs with ⟨stripped, hstr, hsplit⟩
    rcases List.mem_map.mp hstr with ⟨r0, hr0, hstrip⟩
    rcases findAllAux_mem true (tokenize p.pathStr) _ _ _ hr0 with
      ⟨i, m, hmt, hrtake⟩
    -- the match contains at least the pattern's 7 frame slashes
    have hslash : 7 ≤ List.count '/' r0 := by
      rw [hrtake]
      calc (7 : Nat) ≤ List.count '/' p.pathStr := by
            rw [count_slash_pathStr]
            exact Nat.le_add_right 7 _
        _ = List.count (Tok.lit '/') (tokenize p.pathStr) :=
            (tokenize_count_slash _).symm
        _ ≤ _ := matchTok_slash true _ _ m hmt
    -- the match is newline-free
    have hnl : '\n' ∉ r0 := by
      rw [hrtake]
      exact matchTok_no_nl true _ _ m
        (tokenize_no_nl p.pathStr (pathStr_no_nl p hp)) hmt
    -- the match is a block of the joined buffer
    have hblock : c.buffer.take i ++ r0 ++ (c.buffer.drop i).drop m =
        c.buffer := by
      rw [hrtake, List.append_assoc, List.take_append_drop,
        List.take_append_drop]
    -- hence a block of one line, i.e. of one member's canonical string
    rcases block_of_intercalate_nl (c.paths.map DatasetPath.pathStr)
        (c.buffer.take i) r0 ((c.buffer.drop i).drop m)
        (by rw [hblock]; rfl) hnl with hr0nil | ⟨L, hL, pre, post, hLeq⟩
    · rw [hr0nil] at hslash
      simp at hslash
    · rcases List.mem_map.mp hL with ⟨q, hq, hqL⟩
      subst hqL
      have hqclean := hm q hq
      -- the line has exactly 7 slashes, so the block is the whole line
      have hr0line : r0 = q.pathStr :=
        block_eq_line q.pathStr r0 pre post hLeq hslash
          (count_slash_pathStr_clean q (fun s hs => (hqclean s hs).2.1))
          ⟨List.intercalate ['/'] q.parts ++ ['/'],
            by rw [DatasetPath.pathStr, List.cons_append]⟩
          ⟨('/' :: List.intercalate ['/'] q.parts).reverse,
            by rw [DatasetPath.pathStr]; simp⟩
      -- strip + split therefore reproduces the member's parts …
      have hargsq : args = q.parts := by
        rw [← hsplit, ← hstrip, hr0line]
        exact strip2_split_pathStr q
          (fun s hs => ⟨(hqclean s hs).1, (hqclean s hs).2.1⟩)
      -- … and the re-built path is that member
      rw [hargsq, mkPathFromArgs_parts] at hmk
      injection hmk with hmk
      rw [← hmk]
      exact hq

/-- Witness for the amended C10 theorem: resolving the all-wildcard pattern
against the clean two-member catalog returns exactly its members, and
soundness places the first result inside the catalog. -/
theorem c10_resolve_sound_witness :
    exPathABCDEF ∈
      (⟨[exPathABCDEF, exPathGHIJKL]⟩ : DatasetPathCollection).paths :=
  c10_resolve_sound_on_clean_parts ⟨[exPathABCDEF, exPathGHIJKL]⟩ exAllWild
    ⟨[exPathABCDEF, exPathGHIJKL]⟩ (by decide) (by decide) (by rfl)
    exPathABCDEF (by decide)

end Pandss
